import Mathlib

/-!
Shallow embedding of `src/stan/prob/distributions/univariate/continuous/normal.hpp`:
the Gaussian density (`normal_log`), cumulative evaluators (`normal_cdf`,
`normal_cdf_log`, `normal_ccdf_log`) and the sampler (`normal_rng`).

Doubles are idealised as real numbers; the C++ template-level distinction
between plain arithmetic types (constant, no derivative tracking) and
reverse-mode `var` types is carried as a per-argument `isConst` flag; the
scalar-vs-`std::vector` distinction of `VectorView` is the `ArgVal`
inductive.  `erf`/`erfc` from `<cmath>` are opaque external functions and
appear as parameters.
-/

namespace StanNormal

/-- Errors signalled by the validation collaborators: `DomainError` when a
numeric precondition (positivity, finiteness, not-NaN) fails, `ShapeMismatch`
when argument lengths are incompatible. -/
inductive StanError
  | domainError
  | shapeMismatch
  deriving DecidableEq, Repr

/-- A scalar-or-sequence argument value: a plain scalar or a `std::vector`. -/
inductive ArgVal
  | scalar (x : ℝ)
  | vec (xs : List ℝ)

/-- An input argument: its value(s) together with whether its C++ type is a
plain arithmetic (constant) type, i.e. `is_constant_struct<T>::value`. -/
structure Arg where
  val : ArgVal
  isConst : Bool

/-- `stan::length`: 1 for a scalar, the vector's size otherwise. -/
def ArgVal.length : ArgVal → ℕ
  | .scalar _ => 1
  | .vec xs => xs.length

def Arg.length (a : Arg) : ℕ := a.val.length

/-- `VectorView` element access: a scalar replays its sole value at every
index, a vector is indexed directly. -/
def ArgVal.view : ArgVal → ℕ → ℝ
  | .scalar x, _ => x
  | .vec xs, n => xs.getD n 0

def Arg.view (a : Arg) (n : ℕ) : ℝ := a.val.view n

/-- The partial-derivative slot `d_x[n]` addresses: slot 0 for a scalar
operand (its `VectorView` over the partials array replays slot 0), slot `n`
for a vector operand. -/
def Arg.idx (a : Arg) (n : ℕ) : ℕ :=
  match a.val with
  | .scalar _ => 0
  | .vec _ => n

/-- `max_size(y, mu, sigma)`: the broadcast length. -/
def max_size (y mu sigma : Arg) : ℕ :=
  max y.length (max mu.length sigma.length)

/-- `check_not_nan`: real numbers carry no NaN, so over this idealisation the
check always passes. -/
def check_not_nan (_a : Arg) : Except StanError Unit := .ok ()

/-- `check_finite`: every real number is finite, so the check always passes. -/
def check_finite (_a : Arg) : Except StanError Unit := .ok ()

open Classical in
/-- `check_positive`: every element must be strictly positive, else the call
aborts with a `DomainError`. -/
noncomputable def check_positive (a : Arg) : Except StanError Unit :=
  if ∀ n, n < a.length → 0 < a.view n then .ok () else .error .domainError

/-- `check_consistent_sizes`' success condition: every argument's length is
either 1 or the broadcast length. -/
def sizesOK (y mu sigma : Arg) : Prop :=
  (y.length = 1 ∨ y.length = max_size y mu sigma)
    ∧ (mu.length = 1 ∨ mu.length = max_size y mu sigma)
    ∧ (sigma.length = 1 ∨ sigma.length = max_size y mu sigma)

instance (y mu sigma : Arg) : Decidable (sizesOK y mu sigma) := by
  unfold sizesOK; infer_instance

/-- `check_consistent_sizes`: aborts with a `ShapeMismatch` error when some
argument's length is neither 1 nor the broadcast maximum. -/
def check_consistent_sizes (y mu sigma : Arg) : Except StanError Unit :=
  if sizesOK y mu sigma then .ok () else .error .shapeMismatch

/-- `stan::prob::include_summand<propto, T...>`: a summand is included when
not in proportional mode, or when one of the listed argument types is
non-constant (derivative-tracked). `consts` lists `is_constant_struct` of
each type parameter. -/
def include_summand (propto : Bool) (consts : List Bool) : Bool :=
  !propto || consts.any (fun c => !c)

/-- The three derivative accumulators of `OperandsAndPartials`, one slot map
per operand (`d_x1`, `d_x2`, `d_x3`). -/
structure Partials3 where
  d1 : ℕ → ℝ
  d2 : ℕ → ℝ
  d3 : ℕ → ℝ

/-- Freshly created accumulators hold zero in every slot. -/
def Partials3.zero : Partials3 := ⟨fun _ => 0, fun _ => 0, fun _ => 0⟩

/-- `d_x[i] += v`: add `v` into slot `i`, leaving the other slots alone. -/
def bump (f : ℕ → ℝ) (i : ℕ) (v : ℝ) : ℕ → ℝ :=
  fun j => if j = i then f j + v else f j

/-- The value and accumulated partials a successful evaluator call returns
(`operands_and_partials.to_var(value)`). -/
structure NRes where
  val : ℝ
  pd : Partials3

/-- Loop state of the `normal_log` accumulation loop. -/
structure LState where
  logp : ℝ
  pd : Partials3

/-- `stan::prob::NEG_LOG_SQRT_TWO_PI`. -/
noncomputable def NEG_LOG_SQRT_TWO_PI : ℝ := -Real.log (Real.sqrt (2 * Real.pi))

/-- One iteration of the `normal_log` loop body: the three conditional
log-probability summands and the three guarded derivative writes. -/
noncomputable def normal_log_step (propto : Bool) (y mu sigma : Arg)
    (s : LState) (n : ℕ) : LState :=
  let y_dbl := y.view n
  let mu_dbl := mu.view n
  let inv_sigma := 1 / sigma.view n
  let log_sigma := Real.log (sigma.view n)
  let y_minus_mu_over_sigma := (y_dbl - mu_dbl) * inv_sigma
  let y_minus_mu_over_sigma_squared := y_minus_mu_over_sigma * y_minus_mu_over_sigma
  let logp := s.logp
  let logp := if include_summand propto [] then logp + NEG_LOG_SQRT_TWO_PI else logp
  let logp := if include_summand propto [sigma.isConst] then logp - log_sigma else logp
  let logp := if include_summand propto [y.isConst, mu.isConst, sigma.isConst] then
      logp + (-0.5) * y_minus_mu_over_sigma_squared
    else logp
  let scaled_diff := inv_sigma * y_minus_mu_over_sigma
  let d1 := if !y.isConst then bump s.pd.d1 (y.idx n) (-scaled_diff) else s.pd.d1
  let d2 := if !mu.isConst then bump s.pd.d2 (mu.idx n) scaled_diff else s.pd.d2
  let d3 := if !sigma.isConst then
      bump s.pd.d3 (sigma.idx n)
        (-inv_sigma + inv_sigma * y_minus_mu_over_sigma_squared)
    else s.pd.d3
  ⟨logp, ⟨d1, d2, d3⟩⟩

/-- `stan::prob::normal_log<propto>(y, mu, sigma)`: zero-length short-circuit,
validation, proportionality short-circuit, then the accumulation loop over
the broadcast length. -/
noncomputable def normal_log (propto : Bool) (y mu sigma : Arg) :
    Except StanError NRes :=
  if y.length = 0 ∨ mu.length = 0 ∨ sigma.length = 0 then .ok ⟨0, .zero⟩
  else
    match check_not_nan y with
    | .error e => .error e
    | .ok _ =>
      match check_finite mu with
      | .error e => .error e
      | .ok _ =>
        match check_positive sigma with
        | .error e => .error e
        | .ok _ =>
          match check_consistent_sizes y mu sigma with
          | .error e => .error e
          | .ok _ =>
            if !include_summand propto [y.isConst, mu.isConst, sigma.isConst] then
              .ok ⟨0, .zero⟩
            else
              let N := max_size y mu sigma
              let s := (List.range N).foldl (normal_log_step propto y mu sigma)
                ⟨0, .zero⟩
              .ok ⟨s.logp, s.pd⟩

/-- `stan::math::SQRT_2`. -/
noncomputable def SQRT_2 : ℝ := Real.sqrt 2

/-- `stan::math::INV_SQRT_2`. -/
noncomputable def INV_SQRT_2 : ℝ := 1 / Real.sqrt 2

/-- `std::sqrt(2.0 / stan::math::pi())`, the local `SQRT_TWO_OVER_PI`. -/
noncomputable def SQRT_TWO_OVER_PI : ℝ := Real.sqrt (2 / Real.pi)

/-- Per-element standardised distance used by all three tail evaluators:
`(y_dbl - mu_dbl) / (sigma_dbl * SQRT_2)`. -/
noncomputable def scaled_diff (y mu sigma : Arg) (n : ℕ) : ℝ :=
  (y.view n - mu.view n) / (sigma.view n * SQRT_2)

/-- The per-element cdf factor `cdf_` of `normal_cdf`: the four-region
piecewise evaluation of `0.5 * (1 + erf(scaled_diff))`. -/
noncomputable def normal_cdf_factor (erf erfc : ℝ → ℝ) (sd : ℝ) : ℝ :=
  if sd < -37.5 * INV_SQRT_2 then 0
  else if sd < -5.0 * INV_SQRT_2 then 0.5 * erfc (-sd)
  else if sd > 8.25 * INV_SQRT_2 then 1
  else 0.5 * (1.0 + erf sd)

/-- The `one_p_erf` quantity of `normal_cdf_log`: the four-region piecewise
evaluation of `1 + erf(scaled_diff)`. -/
noncomputable def one_p_erf (erf erfc : ℝ → ℝ) (sd : ℝ) : ℝ :=
  if sd < -37.5 * INV_SQRT_2 then 0
  else if sd < -5.0 * INV_SQRT_2 then erfc (-sd)
  else if sd > 8.25 * INV_SQRT_2 then 2.0
  else 1.0 + erf sd

/-- The `one_m_erf` quantity of `normal_ccdf_log`: the four-region piecewise
evaluation of `1 - erf(scaled_diff)`. -/
noncomputable def one_m_erf (erf erfc : ℝ → ℝ) (sd : ℝ) : ℝ :=
  if sd < -37.5 * INV_SQRT_2 then 2.0
  else if sd < -5.0 * INV_SQRT_2 then 2.0 - erfc (-sd)
  else if sd > 8.25 * INV_SQRT_2 then 0
  else 1.0 - erf sd

/-- The shared piecewise tail policy as the specification words it: below
`-37.5/√2` the `1+erf` quantity saturates to 0, between `-37.5/√2` and
`-5/√2` the complementary error function `erfc(-scaled_diff)` replaces
`erf`, above `8.25/√2` it saturates to the opposite extreme 2, and otherwise
`erf(scaled_diff)` is evaluated directly.  The three evaluators' branch
functions are each an affine image of this one policy. -/
noncomputable def tailPolicy (erf erfc : ℝ → ℝ) (sd : ℝ) : ℝ :=
  if sd < -37.5 * INV_SQRT_2 then 0
  else if sd < -5.0 * INV_SQRT_2 then erfc (-sd)
  else if sd > 8.25 * INV_SQRT_2 then 2
  else 1 + erf sd

/-- Loop state of the cumulative evaluators: the running value (a product for
`normal_cdf`, a sum of logs for the log forms) and the accumulators. -/
structure CState where
  val : ℝ
  pd : Partials3

/-- `rep_deriv` of the `normal_cdf` loop body. -/
noncomputable def normal_cdf_rep_deriv (erf erfc : ℝ → ℝ) (y mu sigma : Arg)
    (n : ℕ) : ℝ :=
  SQRT_TWO_OVER_PI * 0.5 * Real.exp (-scaled_diff y mu sigma n * scaled_diff y mu sigma n)
    / normal_cdf_factor erf erfc (scaled_diff y mu sigma n) / sigma.view n

/-- One iteration of the `normal_cdf` loop body: multiply the running cdf by
the per-element factor and add the guarded derivative contributions. -/
noncomputable def normal_cdf_step (erf erfc : ℝ → ℝ) (y mu sigma : Arg)
    (s : CState) (n : ℕ) : CState :=
  let sd := scaled_diff y mu sigma n
  let cdf_ := normal_cdf_factor erf erfc sd
  let cdf := s.val * cdf_
  let rep_deriv := normal_cdf_rep_deriv erf erfc y mu sigma n
  let d1 := if !y.isConst then bump s.pd.d1 (y.idx n) rep_deriv else s.pd.d1
  let d2 := if !mu.isConst then bump s.pd.d2 (mu.idx n) (-rep_deriv) else s.pd.d2
  let d3 := if !sigma.isConst then
      bump s.pd.d3 (sigma.idx n) (-(rep_deriv * sd * SQRT_2))
    else s.pd.d3
  ⟨cdf, ⟨d1, d2, d3⟩⟩

/-- The post-loop rescaling of `normal_cdf`: every slot `n < len` of an
accumulator is multiplied by the final joint cdf. -/
def scaleBelow (f : ℕ → ℝ) (len : ℕ) (c : ℝ) : ℕ → ℝ :=
  fun j => if j < len then f j * c else f j

/-- `stan::prob::normal_cdf(y, mu, sigma)`: zero-length short-circuit (the
running value starts at 1), validation, multiplicative accumulation loop,
then the product-rule post-pass over every non-constant operand's slots. -/
noncomputable def normal_cdf (erf erfc : ℝ → ℝ) (y mu sigma : Arg) :
    Except StanError NRes :=
  if y.length = 0 ∨ mu.length = 0 ∨ sigma.length = 0 then .ok ⟨1, .zero⟩
  else
    match check_not_nan y with
    | .error e => .error e
    | .ok _ =>
      match check_finite mu with
      | .error e => .error e
      | .ok _ =>
        match check_not_nan sigma with
        | .error e => .error e
        | .ok _ =>
          match check_positive sigma with
          | .error e => .error e
          | .ok _ =>
            match check_consistent_sizes y mu sigma with
            | .error e => .error e
            | .ok _ =>
              let N := max_size y mu sigma
              let s := (List.range N).foldl (normal_cdf_step erf erfc y mu sigma)
                ⟨1, .zero⟩
              let d1 := if !y.isConst then scaleBelow s.pd.d1 y.length s.val
                else s.pd.d1
              let d2 := if !mu.isConst then scaleBelow s.pd.d2 mu.length s.val
                else s.pd.d2
              let d3 := if !sigma.isConst then scaleBelow s.pd.d3 sigma.length s.val
                else s.pd.d3
              .ok ⟨s.val, ⟨d1, d2, d3⟩⟩

/-- `rep_deriv` of the `normal_cdf_log` loop body. -/
noncomputable def normal_cdf_log_rep_deriv (erf erfc : ℝ → ℝ) (y mu sigma : Arg)
    (n : ℕ) : ℝ :=
  SQRT_TWO_OVER_PI * Real.exp (-scaled_diff y mu sigma n * scaled_diff y mu sigma n)
    / one_p_erf erf erfc (scaled_diff y mu sigma n)

/-- One iteration of the `normal_cdf_log` loop body. -/
noncomputable def normal_cdf_log_step (erf erfc : ℝ → ℝ) (y mu sigma : Arg)
    (s : CState) (n : ℕ) : CState :=
  let sd := scaled_diff y mu sigma n
  let one_p := one_p_erf erf erfc sd
  let cdf_log := s.val + (Real.log 0.5 + Real.log one_p)
  let rep_deriv := normal_cdf_log_rep_deriv erf erfc y mu sigma n
  let d1 := if !y.isConst then
      bump s.pd.d1 (y.idx n) (rep_deriv / sigma.view n)
    else s.pd.d1
  let d2 := if !mu.isConst then
      bump s.pd.d2 (mu.idx n) (-(rep_deriv / sigma.view n))
    else s.pd.d2
  let d3 := if !sigma.isConst then
      bump s.pd.d3 (sigma.idx n) (-(rep_deriv * sd * SQRT_2 / sigma.view n))
    else s.pd.d3
  ⟨cdf_log, ⟨d1, d2, d3⟩⟩

/-- `stan::prob::normal_cdf_log(y, mu, sigma)`. -/
noncomputable def normal_cdf_log (erf erfc : ℝ → ℝ) (y mu sigma : Arg) :
    Except StanError NRes :=
  if y.length = 0 ∨ mu.length = 0 ∨ sigma.length = 0 then .ok ⟨0, .zero⟩
  else
    match check_not_nan y with
    | .error e => .error e
    | .ok _ =>
      match check_finite mu with
      | .error e => .error e
      | .ok _ =>
        match check_not_nan sigma with
        | .error e => .error e
        | .ok _ =>
          match check_positive sigma with
          | .error e => .error e
          | .ok _ =>
            match check_consistent_sizes y mu sigma with
            | .error e => .error e
            | .ok _ =>
              let N := max_size y mu sigma
              let s := (List.range N).foldl
                (normal_cdf_log_step erf erfc y mu sigma) ⟨0, .zero⟩
              .ok ⟨s.val, s.pd⟩

/-- `rep_deriv` of the `normal_ccdf_log` loop body. -/
noncomputable def normal_ccdf_log_rep_deriv (erf erfc : ℝ → ℝ) (y mu sigma : Arg)
    (n : ℕ) : ℝ :=
  SQRT_TWO_OVER_PI * Real.exp (-scaled_diff y mu sigma n * scaled_diff y mu sigma n)
    / one_m_erf erf erfc (scaled_diff y mu sigma n)

/-- One iteration of the `normal_ccdf_log` loop body. -/
noncomputable def normal_ccdf_log_step (erf erfc : ℝ → ℝ) (y mu sigma : Arg)
    (s : CState) (n : ℕ) : CState :=
  let sd := scaled_diff y mu sigma n
  let one_m := one_m_erf erf erfc sd
  let ccdf_log := s.val + (Real.log 0.5 + Real.log one_m)
  let rep_deriv := normal_ccdf_log_rep_deriv erf erfc y mu sigma n
  let d1 := if !y.isConst then
      bump s.pd.d1 (y.idx n) (-(rep_deriv / sigma.view n))
    else s.pd.d1
  let d2 := if !mu.isConst then
      bump s.pd.d2 (mu.idx n) (rep_deriv / sigma.view n)
    else s.pd.d2
  let d3 := if !sigma.isConst then
      bump s.pd.d3 (sigma.idx n) (rep_deriv * sd * SQRT_2 / sigma.view n)
    else s.pd.d3
  ⟨ccdf_log, ⟨d1, d2, d3⟩⟩

/-- `stan::prob::normal_ccdf_log(y, mu, sigma)`. -/
noncomputable def normal_ccdf_log (erf erfc : ℝ → ℝ) (y mu sigma : Arg) :
    Except StanError NRes :=
  if y.length = 0 ∨ mu.length = 0 ∨ sigma.length = 0 then .ok ⟨0, .zero⟩
  else
    match check_not_nan y with
    | .error e => .error e
    | .ok _ =>
      match check_finite mu with
      | .error e => .error e
      | .ok _ =>
        match check_not_nan sigma with
        | .error e => .error e
        | .ok _ =>
          match check_positive sigma with
          | .error e => .error e
          | .ok _ =>
            match check_consistent_sizes y mu sigma with
            | .error e => .error e
            | .ok _ =>
              let N := max_size y mu sigma
              let s := (List.range N).foldl
                (normal_ccdf_log_step erf erfc y mu sigma) ⟨0, .zero⟩
              .ok ⟨s.val, s.pd⟩

/-- The external standard-normal random source the sampler consumes: a
stream of standard normal deviates and the position of the next draw. -/
structure Rng where
  draws : ℕ → ℝ
  pos : ℕ

/-- Modelled from the spec: the external random-source collaborator (boost's
`variate_generator` over `normal_distribution<>(mu, sigma)`, not part of the
repository's files) draws one standard normal deviate from the engine and
linearly transforms it as `mu + sigma * draw`. -/
def rngDraw (mu sigma : ℝ) (r : Rng) : ℝ × Rng :=
  (mu + sigma * r.draws r.pos, ⟨r.draws, r.pos + 1⟩)

/-- Scalar-parameter validation checks of `normal_rng` over idealised reals:
finiteness and not-NaN always hold. -/
def check_finite_scalar (_x : ℝ) : Except StanError Unit := .ok ()

def check_not_nan_scalar (_x : ℝ) : Except StanError Unit := .ok ()

open Classical in
noncomputable def check_positive_scalar (x : ℝ) : Except StanError Unit :=
  if 0 < x then .ok () else .error .domainError

/-- `stan::prob::normal_rng(mu, sigma, rng)`: validate both parameters, then
draw.  On a failed check the call aborts with the error and the random
source is untouched. -/
noncomputable def normal_rng (mu sigma : ℝ) (rng : Rng) :
    Except StanError (ℝ × Rng) :=
  match check_finite_scalar mu with
  | .error e => .error e
  | .ok _ =>
    match check_not_nan_scalar mu with
    | .error e => .error e
    | .ok _ =>
      match check_positive_scalar sigma with
      | .error e => .error e
      | .ok _ =>
        match check_not_nan_scalar sigma with
        | .error e => .error e
        | .ok _ => .ok (rngDraw mu sigma rng)

/-! ### Closed forms for the accumulation loops -/

/-- The per-element contribution to `logp` in the `normal_log` loop. -/
noncomputable def normal_log_elt (propto : Bool) (y mu sigma : Arg) (n : ℕ) : ℝ :=
  (if include_summand propto [] then NEG_LOG_SQRT_TWO_PI else 0)
    + (if include_summand propto [sigma.isConst] then -Real.log (sigma.view n) else 0)
    + (if include_summand propto [y.isConst, mu.isConst, sigma.isConst] then
        (-0.5) * (((y.view n - mu.view n) * (1 / sigma.view n))
          * ((y.view n - mu.view n) * (1 / sigma.view n)))
      else 0)

/-- The `scaled_diff` quantity of the `normal_log` gradient block,
`inv_sigma[n] * y_minus_mu_over_sigma`. -/
noncomputable def normal_log_scaled_diff (y mu sigma : Arg) (n : ℕ) : ℝ :=
  (1 / sigma.view n) * ((y.view n - mu.view n) * (1 / sigma.view n))

/-- The per-element contribution to `d_x3` (the sigma accumulator) in the
`normal_log` loop: `-inv_sigma[n] + inv_sigma[n] * y_minus_mu_over_sigma²`. -/
noncomputable def normal_log_dsigma (y mu sigma : Arg) (n : ℕ) : ℝ :=
  -(1 / sigma.view n) + (1 / sigma.view n)
    * (((y.view n - mu.view n) * (1 / sigma.view n))
      * ((y.view n - mu.view n) * (1 / sigma.view n)))

/-- The reference Gaussian probability density,
`normal_pdf(y, mu, sigma) = exp(-(y-mu)²/(2σ²)) / (σ √(2π))`. -/
noncomputable def normal_pdf (y mu sigma : ℝ) : ℝ :=
  (1 / (sigma * Real.sqrt (2 * Real.pi)))
    * Real.exp (-((y - mu) ^ 2 / (2 * sigma ^ 2)))

lemma bump_apply (f : ℕ → ℝ) (i : ℕ) (v : ℝ) (j : ℕ) :
    bump f i v j = f j + (if j = i then v else 0) := by
  unfold bump
  by_cases h : j = i <;> simp [h]

lemma normal_log_step_logp (p : Bool) (y mu sigma : Arg) (s : LState) (n : ℕ) :
    (normal_log_step p y mu sigma s n).logp
      = s.logp + normal_log_elt p y mu sigma n := by
  cases h1 : include_summand p [] <;>
    cases h2 : include_summand p [sigma.isConst] <;>
      cases h3 : include_summand p [y.isConst, mu.isConst, sigma.isConst] <;>
        simp [normal_log_step, normal_log_elt, h1, h2, h3] <;> ring

lemma normal_log_step_d1 (p : Bool) (y mu sigma : Arg) (s : LState) (n : ℕ) :
    (normal_log_step p y mu sigma s n).pd.d1
      = if y.isConst then s.pd.d1
        else bump s.pd.d1 (y.idx n) (-normal_log_scaled_diff y mu sigma n) := by
  cases h : y.isConst <;> simp [normal_log_step, normal_log_scaled_diff, h]

lemma normal_log_step_d2 (p : Bool) (y mu sigma : Arg) (s : LState) (n : ℕ) :
    (normal_log_step p y mu sigma s n).pd.d2
      = if mu.isConst then s.pd.d2
        else bump s.pd.d2 (mu.idx n) (normal_log_scaled_diff y mu sigma n) := by
  cases h : mu.isConst <;> simp [normal_log_step, normal_log_scaled_diff, h]

lemma normal_log_step_d3 (p : Bool) (y mu sigma : Arg) (s : LState) (n : ℕ) :
    (normal_log_step p y mu sigma s n).pd.d3
      = if sigma.isConst then s.pd.d3
        else bump s.pd.d3 (sigma.idx n) (normal_log_dsigma y mu sigma n) := by
  cases h : sigma.isConst <;> simp [normal_log_step, normal_log_dsigma, h]

lemma normal_log_fold_logp (p : Bool) (y mu sigma : Arg) (N : ℕ) (s : LState) :
    ((List.range N).foldl (normal_log_step p y mu sigma) s).logp
      = s.logp + ∑ n ∈ Finset.range N, normal_log_elt p y mu sigma n := by
  induction N with
  | zero => simp
  | succ N ih =>
    rw [List.range_succ, List.foldl_append, List.foldl_cons, List.foldl_nil,
      normal_log_step_logp, ih, Finset.sum_range_succ]
    ring

lemma normal_log_fold_d1_const (p : Bool) (y mu sigma : Arg)
    (h : y.isConst = true) (N : ℕ) (s : LState) :
    ((List.range N).foldl (normal_log_step p y mu sigma) s).pd.d1 = s.pd.d1 := by
  induction N with
  | zero => simp
  | succ N ih =>
    rw [List.range_succ, List.foldl_append, List.foldl_cons, List.foldl_nil,
      normal_log_step_d1, if_pos h, ih]

lemma normal_log_fold_d1 (p : Bool) (y mu sigma : Arg)
    (h : y.isConst = false) (N : ℕ) (s : LState) :
    ((List.range N).foldl (normal_log_step p y mu sigma) s).pd.d1
      = fun j => s.pd.d1 j + ∑ n ∈ Finset.range N,
          (if j = y.idx n then -normal_log_scaled_diff y mu sigma n else 0) := by
  induction N with
  | zero => simp
  | succ N ih =>
    rw [List.range_succ, List.foldl_append, List.foldl_cons, List.foldl_nil,
      normal_log_step_d1, if_neg (by simp [h]), ih]
    funext j
    rw [bump_apply, Finset.sum_range_succ]
    ring

lemma normal_log_fold_d2_const (p : Bool) (y mu sigma : Arg)
    (h : mu.isConst = true) (N : ℕ) (s : LState) :
    ((List.range N).foldl (normal_log_step p y mu sigma) s).pd.d2 = s.pd.d2 := by
  induction N with
  | zero => simp
  | succ N ih =>
    rw [List.range_succ, List.foldl_append, List.foldl_cons, List.foldl_nil,
      normal_log_step_d2, if_pos h, ih]

lemma normal_log_fold_d2 (p : Bool) (y mu sigma : Arg)
    (h : mu.isConst = false) (N : ℕ) (s : LState) :
    ((List.range N).foldl (normal_log_step p y mu sigma) s).pd.d2
      = fun j => s.pd.d2 j + ∑ n ∈ Finset.range N,
          (if j = mu.idx n then normal_log_scaled_diff y mu sigma n else 0) := by
  induction N with
  | zero => simp
  | succ N ih =>
    rw [List.range_succ, List.foldl_append, List.foldl_cons, List.foldl_nil,
      normal_log_step_d2, if_neg (by simp [h]), ih]
    funext j
    rw [bump_apply, Finset.sum_range_succ]
    ring

lemma normal_log_fold_d3_const (p : Bool) (y mu sigma : Arg)
    (h : sigma.isConst = true) (N : ℕ) (s : LState) :
    ((List.range N).foldl (normal_log_step p y mu sigma) s).pd.d3 = s.pd.d3 := by
  induction N with
  | zero => simp
  | succ N ih =>
    rw [List.range_succ, List.foldl_append, List.foldl_cons, List.foldl_nil,
      normal_log_step_d3, if_pos h, ih]

lemma normal_log_fold_d3 (p : Bool) (y mu sigma : Arg)
    (h : sigma.isConst = false) (N : ℕ) (s : LState) :
    ((List.range N).foldl (normal_log_step p y mu sigma) s).pd.d3
      = fun j => s.pd.d3 j + ∑ n ∈ Finset.range N,
          (if j = sigma.idx n then normal_log_dsigma y mu sigma n else 0) := by
  induction N with
  | zero => simp
  | succ N ih =>
    rw [List.range_succ, List.foldl_append, List.foldl_cons, List.foldl_nil,
      normal_log_step_d3, if_neg (by simp [h]), ih]
    funext j
    rw [bump_apply, Finset.sum_range_succ]
    ring

/-- Under valid inputs the `normal_log` checks all pass and the call reduces
to the proportionality short-circuit and the accumulation loop. -/
lemma normal_log_of_valid (p : Bool) (y mu sigma : Arg)
    (hy : y.length ≠ 0) (hmu : mu.length ≠ 0) (hsig : sigma.length ≠ 0)
    (hpos : ∀ n, n < sigma.length → 0 < sigma.view n)
    (hsz : sizesOK y mu sigma) :
    normal_log p y mu sigma
      = if !include_summand p [y.isConst, mu.isConst, sigma.isConst] then
          .ok ⟨0, .zero⟩
        else
          .ok ⟨((List.range (max_size y mu sigma)).foldl
                  (normal_log_step p y mu sigma) ⟨0, .zero⟩).logp,
               ((List.range (max_size y mu sigma)).foldl
                  (normal_log_step p y mu sigma) ⟨0, .zero⟩).pd⟩ := by
  unfold normal_log check_not_nan check_finite check_positive check_consistent_sizes
  rw [if_neg (by simp [hy, hmu, hsig]), if_pos hpos, if_pos hsz]

lemma normal_cdf_step_val (erf erfc : ℝ → ℝ) (y mu sigma : Arg)
    (s : CState) (n : ℕ) :
    (normal_cdf_step erf erfc y mu sigma s n).val
      = s.val * normal_cdf_factor erf erfc (scaled_diff y mu sigma n) := rfl

lemma normal_cdf_step_d1 (erf erfc : ℝ → ℝ) (y mu sigma : Arg)
    (s : CState) (n : ℕ) :
    (normal_cdf_step erf erfc y mu sigma s n).pd.d1
      = if y.isConst then s.pd.d1
        else bump s.pd.d1 (y.idx n) (normal_cdf_rep_deriv erf erfc y mu sigma n) := by
  cases h : y.isConst <;> simp [normal_cdf_step, h]

lemma normal_cdf_step_d2 (erf erfc : ℝ → ℝ) (y mu sigma : Arg)
    (s : CState) (n : ℕ) :
    (normal_cdf_step erf erfc y mu sigma s n).pd.d2
      = if mu.isConst then s.pd.d2
        else bump s.pd.d2 (mu.idx n)
          (-normal_cdf_rep_deriv erf erfc y mu sigma n) := by
  cases h : mu.isConst <;> simp [normal_cdf_step, h]

lemma normal_cdf_step_d3 (erf erfc : ℝ → ℝ) (y mu sigma : Arg)
    (s : CState) (n : ℕ) :
    (normal_cdf_step erf erfc y mu sigma s n).pd.d3
      = if sigma.isConst then s.pd.d3
        else bump s.pd.d3 (sigma.idx n)
          (-(normal_cdf_rep_deriv erf erfc y mu sigma n
              * scaled_diff y mu sigma n * SQRT_2)) := by
  cases h : sigma.isConst <;> simp [normal_cdf_step, h]

lemma normal_cdf_fold_val (erf erfc : ℝ → ℝ) (y mu sigma : Arg)
    (N : ℕ) (s : CState) :
    ((List.range N).foldl (normal_cdf_step erf erfc y mu sigma) s).val
      = s.val * ∏ n ∈ Finset.range N,
          normal_cdf_factor erf erfc (scaled_diff y mu sigma n) := by
  induction N with
  | zero => simp
  | succ N ih =>
    rw [List.range_succ, List.foldl_append, List.foldl_cons, List.foldl_nil,
      normal_cdf_step_val, ih, Finset.prod_range_succ]
    ring

lemma normal_cdf_fold_d1_const (erf erfc : ℝ → ℝ) (y mu sigma : Arg)
    (h : y.isConst = true) (N : ℕ) (s : CState) :
    ((List.range N).foldl (normal_cdf_step erf erfc y mu sigma) s).pd.d1
      = s.pd.d1 := by
  induction N with
  | zero => simp
  | succ N ih =>
    rw [List.range_succ, List.foldl_append, List.foldl_cons, List.foldl_nil,
      normal_cdf_step_d1, if_pos h, ih]

lemma normal_cdf_fold_d1 (erf erfc : ℝ → ℝ) (y mu sigma : Arg)
    (h : y.isConst = false) (N : ℕ) (s : CState) :
    ((List.range N).foldl (normal_cdf_step erf erfc y mu sigma) s).pd.d1
      = fun j => s.pd.d1 j + ∑ n ∈ Finset.range N,
          (if j = y.idx n then normal_cdf_rep_deriv erf erfc y mu sigma n else 0) := by
  induction N with
  | zero => simp
  | succ N ih =>
    rw [List.range_succ, List.foldl_append, List.foldl_cons, List.foldl_nil,
      normal_cdf_step_d1, if_neg (by simp [h]), ih]
    funext j
    rw [bump_apply, Finset.sum_range_succ]
    ring

lemma normal_cdf_fold_d2_const (erf erfc : ℝ → ℝ) (y mu sigma : Arg)
    (h : mu.isConst = true) (N : ℕ) (s : CState) :
    ((List.range N).foldl (normal_cdf_step erf erfc y mu sigma) s).pd.d2
      = s.pd.d2 := by
  induction N with
  | zero => simp
  | succ N ih =>
    rw [List.range_succ, List.foldl_append, List.foldl_cons, List.foldl_nil,
      normal_cdf_step_d2, if_pos h, ih]

lemma normal_cdf_fold_d2 (erf erfc : ℝ → ℝ) (y mu sigma : Arg)
    (h : mu.isConst = false) (N : ℕ) (s : CState) :
    ((List.range N).foldl (normal_cdf_step erf erfc y mu sigma) s).pd.d2
      = fun j => s.pd.d2 j + ∑ n ∈ Finset.range N,
          (if j = mu.idx n then -normal_cdf_rep_deriv erf erfc y mu sigma n else 0) := by
  induction N with
  | zero => simp
  | succ N ih =>
    rw [List.range_succ, List.foldl_append, List.foldl_cons, List.foldl_nil,
      normal_cdf_step_d2, if_neg (by simp [h]), ih]
    funext j
    rw [bump_apply, Finset.sum_range_succ]
    ring

lemma normal_cdf_fold_d3_const (erf erfc : ℝ → ℝ) (y mu sigma : Arg)
    (h : sigma.isConst = true) (N : ℕ) (s : CState) :
    ((List.range N).foldl (normal_cdf_step erf erfc y mu sigma) s).pd.d3
      = s.pd.d3 := by
  induction N with
  | zero => simp
  | succ N ih =>
    rw [List.range_succ, List.foldl_append, List.foldl_cons, List.foldl_nil,
      normal_cdf_step_d3, if_pos h, ih]

lemma normal_cdf_fold_d3 (erf erfc : ℝ → ℝ) (y mu sigma : Arg)
    (h : sigma.isConst = false) (N : ℕ) (s : CState) :
    ((List.range N).foldl (normal_cdf_step erf erfc y mu sigma) s).pd.d3
      = fun j => s.pd.d3 j + ∑ n ∈ Finset.range N,
          (if j = sigma.idx n then
            -(normal_cdf_rep_deriv erf erfc y mu sigma n
                * scaled_diff y mu sigma n * SQRT_2)
          else 0) := by
  induction N with
  | zero => simp
  | succ N ih =>
    rw [List.range_succ, List.foldl_append, List.foldl_cons, List.foldl_nil,
      normal_cdf_step_d3, if_neg (by simp [h]), ih]
    funext j
    rw [bump_apply, Finset.sum_range_succ]
    ring

/-- Under valid inputs the `normal_cdf` checks all pass and the call reduces
to the accumulation loop followed by the product-rule post-pass. -/
lemma normal_cdf_of_valid (erf erfc : ℝ → ℝ) (y mu sigma : Arg)
    (hy : y.length ≠ 0) (hmu : mu.length ≠ 0) (hsig : sigma.length ≠ 0)
    (hpos : ∀ n, n < sigma.length → 0 < sigma.view n)
    (hsz : sizesOK y mu sigma) :
    normal_cdf erf erfc y mu sigma
      = .ok ⟨((List.range (max_size y mu sigma)).foldl
                (normal_cdf_step erf erfc y mu sigma) ⟨1, .zero⟩).val,
             ⟨(if !y.isConst then
                scaleBelow ((List.range (max_size y mu sigma)).foldl
                    (normal_cdf_step erf erfc y mu sigma) ⟨1, .zero⟩).pd.d1
                  y.length
                  ((List.range (max_size y mu sigma)).foldl
                    (normal_cdf_step erf erfc y mu sigma) ⟨1, .zero⟩).val
              else ((List.range (max_size y mu sigma)).foldl
                  (normal_cdf_step erf erfc y mu sigma) ⟨1, .zero⟩).pd.d1),
              (if !mu.isConst then
                scaleBelow ((List.range (max_size y mu sigma)).foldl
                    (normal_cdf_step erf erfc y mu sigma) ⟨1, .zero⟩).pd.d2
                  mu.length
                  ((List.range (max_size y mu sigma)).foldl
                    (normal_cdf_step erf erfc y mu sigma) ⟨1, .zero⟩).val
              else ((List.range (max_size y mu sigma)).foldl
                  (normal_cdf_step erf erfc y mu sigma) ⟨1, .zero⟩).pd.d2),
              (if !sigma.isConst then
                scaleBelow ((List.range (max_size y mu sigma)).foldl
                    (normal_cdf_step erf erfc y mu sigma) ⟨1, .zero⟩).pd.d3
                  sigma.length
                  ((List.range (max_size y mu sigma)).foldl
                    (normal_cdf_step erf erfc y mu sigma) ⟨1, .zero⟩).val
              else ((List.range (max_size y mu sigma)).foldl
                  (normal_cdf_step erf erfc y mu sigma) ⟨1, .zero⟩).pd.d3)⟩⟩ := by
  unfold normal_cdf check_not_nan check_finite check_positive check_consistent_sizes
  rw [if_neg (by simp [hy, hmu, hsig]), if_pos hpos, if_pos hsz]

/-! ### The claims -/

/-- C2: `normal_cdf`, `normal_cdf_log` and `normal_ccdf_log` evaluate the
tail function of `scaled_diff = (y-mu)/(sigma*sqrt 2)` with one identical
piecewise policy: below `-37.5/√2` the `1+erf` quantity saturates to 0 (so
the cdf factor is 0 and the `1-erf` quantity is 2), between `-37.5/√2` and
`-5/√2` the quantity is computed from `erfc(-scaled_diff)` instead of `erf`,
above `8.25/√2` it saturates to the opposite extreme 2 (cdf factor 1,
`1-erf` quantity 0), and otherwise `erf(scaled_diff)` is evaluated directly:
each operation's branch function is the affine image of the one shared
policy that its quantity dictates, and each loop body applies its branch
function at exactly `scaled_diff`. -/
theorem c2_shared_piecewise_tail_policy (erf erfc : ℝ → ℝ) :
    (∀ sd, normal_cdf_factor erf erfc sd = 0.5 * tailPolicy erf erfc sd)
      ∧ (∀ sd, one_p_erf erf erfc sd = tailPolicy erf erfc sd)
      ∧ (∀ sd, one_m_erf erf erfc sd = 2 - tailPolicy erf erfc sd)
      ∧ (∀ y mu sigma n, scaled_diff y mu sigma n
          = (y.view n - mu.view n) / (sigma.view n * Real.sqrt 2))
      ∧ (∀ y mu sigma s n, (normal_cdf_step erf erfc y mu sigma s n).val
          = s.val * normal_cdf_factor erf erfc (scaled_diff y mu sigma n))
      ∧ (∀ y mu sigma s n, (normal_cdf_log_step erf erfc y mu sigma s n).val
          = s.val + (Real.log 0.5
              + Real.log (one_p_erf erf erfc (scaled_diff y mu sigma n))))
      ∧ (∀ y mu sigma s n, (normal_ccdf_log_step erf erfc y mu sigma s n).val
          = s.val + (Real.log 0.5
              + Real.log (one_m_erf erf erfc (scaled_diff y mu sigma n)))) := by
  refine ⟨fun sd => ?_, fun sd => ?_, fun sd => ?_,
    fun y mu sigma n => rfl, fun y mu sigma s n => rfl,
    fun y mu sigma s n => rfl, fun y mu sigma s n => rfl⟩ <;>
      simp only [normal_cdf_factor, one_p_erf, one_m_erf, tailPolicy] <;>
        split_ifs <;> ring

/-- C6: when some argument has length 0 the evaluator returns its operation's
identity value at once: `normal_log` returns 0 and `normal_cdf` returns 1,
with empty gradient metadata, and nothing further is computed. -/
theorem c6_zero_length_returns_identity (erf erfc : ℝ → ℝ) (y mu sigma : Arg)
    (h : y.length = 0 ∨ mu.length = 0 ∨ sigma.length = 0) :
    normal_log false y mu sigma = .ok ⟨0, .zero⟩
      ∧ normal_cdf erf erfc y mu sigma = .ok ⟨1, .zero⟩ := by
  constructor
  · unfold normal_log
    rw [if_pos h]
  · unfold normal_cdf
    rw [if_pos h]

/-- Witness for C6 at `y = []`, `mu = 0`, `sigma = 1`. -/
theorem c6_zero_length_witness :
    (Arg.length ⟨.vec [], true⟩ = 0 ∨ Arg.length ⟨.scalar 0, true⟩ = 0
        ∨ Arg.length ⟨.scalar 1, true⟩ = 0)
      ∧ (normal_log false ⟨.vec [], true⟩ ⟨.scalar 0, true⟩ ⟨.scalar 1, true⟩
            = .ok ⟨0, .zero⟩
        ∧ normal_cdf (fun _ => 0) (fun _ => 0) ⟨.vec [], true⟩ ⟨.scalar 0, true⟩
            ⟨.scalar 1, true⟩ = .ok ⟨1, .zero⟩) :=
  ⟨Or.inl rfl,
    c6_zero_length_returns_identity (fun _ => 0) (fun _ => 0)
      ⟨.vec [], true⟩ ⟨.scalar 0, true⟩ ⟨.scalar 1, true⟩ (Or.inl rfl)⟩

/-- C7: on non-empty inputs, `normal_log` aborts with a `DomainError` when
some element of `sigma` is not strictly positive, and with a `ShapeMismatch`
error when the lengths are inconsistent (sigma being positive), propagating
the error with no partial result. -/
theorem c7_validation_errors (y mu sigma : Arg)
    (hy : y.length ≠ 0) (hmu : mu.length ≠ 0) (hsig : sigma.length ≠ 0) :
    ((∃ n, n < sigma.length ∧ sigma.view n ≤ 0) →
        normal_log false y mu sigma = .error .domainError)
      ∧ ((∀ n, n < sigma.length → 0 < sigma.view n) → ¬ sizesOK y mu sigma →
        normal_log false y mu sigma = .error .shapeMismatch) := by
  constructor
  · rintro ⟨n, hn, hle⟩
    unfold normal_log check_not_nan check_finite check_positive
    rw [if_neg (by simp [hy, hmu, hsig]),
      if_neg (fun hall => absurd (hall n hn) (not_lt.mpr hle))]
  · intro hpos hsz
    unfold normal_log check_not_nan check_finite check_positive
      check_consistent_sizes
    rw [if_neg (by simp [hy, hmu, hsig]), if_pos hpos, if_neg hsz]

/-- Witness for C7: `sigma = -1` gives a `DomainError`; `y` of length 3
against `mu` of length 2 (with `sigma = 1`) gives a `ShapeMismatch`. -/
theorem c7_validation_errors_witness :
    normal_log false ⟨.scalar 0, true⟩ ⟨.scalar 0, true⟩ ⟨.scalar (-1), true⟩
        = .error .domainError
      ∧ normal_log false ⟨.vec [0, 0, 0], true⟩ ⟨.vec [0, 0], true⟩
          ⟨.scalar 1, true⟩ = .error .shapeMismatch :=
  ⟨(c7_validation_errors ⟨.scalar 0, true⟩ ⟨.scalar 0, true⟩
      ⟨.scalar (-1), true⟩ (by decide) (by decide) (by decide)).1
      ⟨0, Nat.zero_lt_one, neg_nonpos.mpr zero_le_one⟩,
    (c7_validation_errors ⟨.vec [0, 0, 0], true⟩ ⟨.vec [0, 0], true⟩
      ⟨.scalar 1, true⟩ (by decide) (by decide) (by decide)).2
      (fun _ _ => one_pos) (by decide)⟩

/-- C9: `normal_rng` validates its parameters (over idealised reals the
finiteness and not-NaN checks always hold and positivity of `sigma` is the
live check) before touching the random source: with valid parameters it
returns the standard normal draw linearly transformed as
`mu + sigma * draw` and advances the source by one draw; with `sigma ≤ 0` it
aborts with a `DomainError` and consumes no randomness. -/
theorem c9_rng_validates_before_drawing (mu sigma : ℝ) (rng : Rng) :
    (0 < sigma →
        normal_rng mu sigma rng
          = .ok (mu + sigma * rng.draws rng.pos, ⟨rng.draws, rng.pos + 1⟩))
      ∧ (sigma ≤ 0 → normal_rng mu sigma rng = .error .domainError) := by
  constructor
  · intro h
    unfold normal_rng check_finite_scalar check_not_nan_scalar
      check_positive_scalar
    rw [if_pos h]
    rfl
  · intro h
    unfold normal_rng check_finite_scalar check_not_nan_scalar
      check_positive_scalar
    rw [if_neg (not_lt.mpr h)]

/-- Witness for C9 at `mu = 0`, `sigma = 1` against a zero draw stream, and
at `sigma = -1` for the failing check. -/
theorem c9_rng_witness :
    normal_rng 0 1 ⟨fun _ => 0, 0⟩ = .ok (0 + 1 * 0, ⟨fun _ => 0, 1⟩)
      ∧ normal_rng 0 (-1) ⟨fun _ => 0, 0⟩ = .error .domainError :=
  ⟨(c9_rng_validates_before_drawing 0 1 ⟨fun _ => 0, 0⟩).1 one_pos,
    (c9_rng_validates_before_drawing 0 (-1) ⟨fun _ => 0, 0⟩).2
      (neg_nonpos.mpr zero_le_one)⟩

/-- C10: the zero-length short-circuit of `normal_log` and `normal_cdf` runs
before every validation check, so a call with some length-0 argument returns
the identity value and never raises an error, even when another argument
violates its numeric precondition or the remaining lengths mismatch. -/
theorem c10_zero_length_precedes_validation (p : Bool) (erf erfc : ℝ → ℝ)
    (y mu sigma : Arg)
    (h : y.length = 0 ∨ mu.length = 0 ∨ sigma.length = 0) :
    normal_log p y mu sigma = .ok ⟨0, .zero⟩
      ∧ normal_cdf erf erfc y mu sigma = .ok ⟨1, .zero⟩
      ∧ (∀ e, normal_log p y mu sigma ≠ .error e)
      ∧ (∀ e, normal_cdf erf erfc y mu sigma ≠ .error e) := by
  have h1 : normal_log p y mu sigma = .ok ⟨0, .zero⟩ := by
    unfold normal_log
    rw [if_pos h]
  have h2 : normal_cdf erf erfc y mu sigma = .ok ⟨1, .zero⟩ := by
    unfold normal_cdf
    rw [if_pos h]
  exact ⟨h1, h2, fun e he => by rw [h1] at he; exact Except.noConfusion he,
    fun e he => by rw [h2] at he; exact Except.noConfusion he⟩

/-- Witness for C10 at `y = []` with a negative `sigma` and mismatched
non-empty lengths: still the identity results, no error. -/
theorem c10_zero_length_witness :
    (Arg.length ⟨.vec [], false⟩ = 0 ∨ Arg.length ⟨.vec [0, 0], true⟩ = 0
        ∨ Arg.length ⟨.scalar (-1), true⟩ = 0)
      ∧ (normal_log true ⟨.vec [], false⟩ ⟨.vec [0, 0], true⟩
            ⟨.scalar (-1), true⟩ = .ok ⟨0, .zero⟩
        ∧ normal_cdf (fun _ => 0) (fun _ => 0) ⟨.vec [], false⟩
            ⟨.vec [0, 0], true⟩ ⟨.scalar (-1), true⟩ = .ok ⟨1, .zero⟩
        ∧ (∀ e, normal_log true ⟨.vec [], false⟩ ⟨.vec [0, 0], true⟩
            ⟨.scalar (-1), true⟩ ≠ .error e)
        ∧ (∀ e, normal_cdf (fun _ => 0) (fun _ => 0) ⟨.vec [], false⟩
            ⟨.vec [0, 0], true⟩ ⟨.scalar (-1), true⟩ ≠ .error e)) :=
  ⟨Or.inl rfl,
    c10_zero_length_precedes_validation true (fun _ => 0) (fun _ => 0)
      ⟨.vec [], false⟩ ⟨.vec [0, 0], true⟩ ⟨.scalar (-1), true⟩ (Or.inl rfl)⟩

/-- C1: for scalar `(y, mu, sigma)` with `sigma > 0`, the non-proportional
`normal_log` accumulates, for its single broadcast element,
`-0.5*log(2π) - log(sigma) - 0.5*z²` with `z = (y-mu)/sigma`, and the
exponential of the returned scalar is the reference normal density. -/
theorem c1_normal_log_matches_reference_density (y mu sigma : ℝ)
    (h : 0 < sigma) :
    ∃ r : NRes,
      normal_log false ⟨.scalar y, true⟩ ⟨.scalar mu, true⟩
          ⟨.scalar sigma, true⟩ = .ok r
        ∧ r.val = NEG_LOG_SQRT_TWO_PI - Real.log sigma
            + (-0.5) * (((y - mu) / sigma) * ((y - mu) / sigma))
        ∧ Real.exp r.val = normal_pdf y mu sigma := by
  have hred := normal_log_of_valid false ⟨.scalar y, true⟩ ⟨.scalar mu, true⟩
    ⟨.scalar sigma, true⟩ one_ne_zero one_ne_zero one_ne_zero
    (fun n _ => h) ⟨Or.inl rfl, Or.inl rfl, Or.inl rfl⟩
  have hok : normal_log false ⟨.scalar y, true⟩ ⟨.scalar mu, true⟩
      ⟨.scalar sigma, true⟩
      = .ok ⟨((List.range 1).foldl
              (normal_log_step false ⟨.scalar y, true⟩ ⟨.scalar mu, true⟩
                ⟨.scalar sigma, true⟩) ⟨0, .zero⟩).logp,
             ((List.range 1).foldl
              (normal_log_step false ⟨.scalar y, true⟩ ⟨.scalar mu, true⟩
                ⟨.scalar sigma, true⟩) ⟨0, .zero⟩).pd⟩ := by
    rw [hred]
    rfl
  have hval : ((List.range 1).foldl
      (normal_log_step false ⟨.scalar y, true⟩ ⟨.scalar mu, true⟩
        ⟨.scalar sigma, true⟩) ⟨0, .zero⟩).logp
      = NEG_LOG_SQRT_TWO_PI - Real.log sigma
        + (-0.5) * (((y - mu) / sigma) * ((y - mu) / sigma)) := by
    rw [normal_log_fold_logp, Finset.sum_range_one]
    show 0 + normal_log_elt false _ _ _ 0 = _
    unfold normal_log_elt
    norm_num [include_summand, Arg.view, ArgVal.view]
    ring
  refine ⟨_, hok, hval, ?_⟩
  rw [hval]
  have hσ : sigma ≠ 0 := ne_of_gt h
  have h2π : (0 : ℝ) < Real.sqrt (2 * Real.pi) :=
    Real.sqrt_pos.mpr (by positivity)
  have hexp : (-0.5 : ℝ) * (((y - mu) / sigma) * ((y - mu) / sigma))
      = -((y - mu) ^ 2 / (2 * sigma ^ 2)) := by
    field_simp
    ring
  rw [hexp, Real.exp_add, Real.exp_sub, Real.exp_log h, NEG_LOG_SQRT_TWO_PI,
    Real.exp_neg, Real.exp_log h2π, normal_pdf]
  ring

/-- Witness for C1 at `y = 0`, `mu = 0`, `sigma = 1`. -/
theorem c1_normal_log_witness :
    ∃ r : NRes,
      normal_log false ⟨.scalar 0, true⟩ ⟨.scalar 0, true⟩ ⟨.scalar 1, true⟩
          = .ok r
        ∧ r.val = NEG_LOG_SQRT_TWO_PI - Real.log 1
            + (-0.5) * ((((0 : ℝ) - 0) / 1) * (((0 : ℝ) - 0) / 1))
        ∧ Real.exp r.val = normal_pdf 0 0 1 :=
  c1_normal_log_matches_reference_density 0 0 1 one_pos

/-- C8: `normal_log` on the two-element vector `[y1, y2]` with scalar `mu`
and `sigma` equals the sum of the two scalar calls. -/
theorem c8_broadcast_additivity (y1 y2 mu sigma : ℝ) (h : 0 < sigma) :
    ∃ rv r1 r2 : NRes,
      normal_log false ⟨.vec [y1, y2], true⟩ ⟨.scalar mu, true⟩
          ⟨.scalar sigma, true⟩ = .ok rv
        ∧ normal_log false ⟨.scalar y1, true⟩ ⟨.scalar mu, true⟩
            ⟨.scalar sigma, true⟩ = .ok r1
        ∧ normal_log false ⟨.scalar y2, true⟩ ⟨.scalar mu, true⟩
            ⟨.scalar sigma, true⟩ = .ok r2
        ∧ rv.val = r1.val + r2.val := by
  have hredv := normal_log_of_valid false ⟨.vec [y1, y2], true⟩
    ⟨.scalar mu, true⟩ ⟨.scalar sigma, true⟩ two_ne_zero one_ne_zero
    one_ne_zero (fun n _ => h) ⟨Or.inr rfl, Or.inl rfl, Or.inl rfl⟩
  have hred1 := normal_log_of_valid false ⟨.scalar y1, true⟩
    ⟨.scalar mu, true⟩ ⟨.scalar sigma, true⟩ one_ne_zero one_ne_zero
    one_ne_zero (fun n _ => h) ⟨Or.inl rfl, Or.inl rfl, Or.inl rfl⟩
  have hred2 := normal_log_of_valid false ⟨.scalar y2, true⟩
    ⟨.scalar mu, true⟩ ⟨.scalar sigma, true⟩ one_ne_zero one_ne_zero
    one_ne_zero (fun n _ => h) ⟨Or.inl rfl, Or.inl rfl, Or.inl rfl⟩
  have hokv : normal_log false ⟨.vec [y1, y2], true⟩ ⟨.scalar mu, true⟩
      ⟨.scalar sigma, true⟩
      = .ok ⟨((List.range 2).foldl (normal_log_step false
              ⟨.vec [y1, y2], true⟩ ⟨.scalar mu, true⟩ ⟨.scalar sigma, true⟩)
              ⟨0, .zero⟩).logp,
             ((List.range 2).foldl (normal_log_step false
              ⟨.vec [y1, y2], true⟩ ⟨.scalar mu, true⟩ ⟨.scalar sigma, true⟩)
              ⟨0, .zero⟩).pd⟩ := by
    rw [hredv]
    rfl
  have hok1 : normal_log false ⟨.scalar y1, true⟩ ⟨.scalar mu, true⟩
      ⟨.scalar sigma, true⟩
      = .ok ⟨((List.range 1).foldl (normal_log_step false ⟨.scalar y1, true⟩
              ⟨.scalar mu, true⟩ ⟨.scalar sigma, true⟩) ⟨0, .zero⟩).logp,
             ((List.range 1).foldl (normal_log_step false ⟨.scalar y1, true⟩
              ⟨.scalar mu, true⟩ ⟨.scalar sigma, true⟩) ⟨0, .zero⟩).pd⟩ := by
    rw [hred1]
    rfl
  have hok2 : normal_log false ⟨.scalar y2, true⟩ ⟨.scalar mu, true⟩
      ⟨.scalar sigma, true⟩
      = .ok ⟨((List.range 1).foldl (normal_log_step false ⟨.scalar y2, true⟩
              ⟨.scalar mu, true⟩ ⟨.scalar sigma, true⟩) ⟨0, .zero⟩).logp,
             ((List.range 1).foldl (normal_log_step false ⟨.scalar y2, true⟩
              ⟨.scalar mu, true⟩ ⟨.scalar sigma, true⟩) ⟨0, .zero⟩).pd⟩ := by
    rw [hred2]
    rfl
  refine ⟨_, _, _, hokv, hok1, hok2, ?_⟩
  show ((List.range 2).foldl (normal_log_step false ⟨.vec [y1, y2], true⟩
      ⟨.scalar mu, true⟩ ⟨.scalar sigma, true⟩) ⟨0, .zero⟩).logp
    = ((List.range 1).foldl (normal_log_step false ⟨.scalar y1, true⟩
        ⟨.scalar mu, true⟩ ⟨.scalar sigma, true⟩) ⟨0, .zero⟩).logp
      + ((List.range 1).foldl (normal_log_step false ⟨.scalar y2, true⟩
        ⟨.scalar mu, true⟩ ⟨.scalar sigma, true⟩) ⟨0, .zero⟩).logp
  rw [normal_log_fold_logp, normal_log_fold_logp, normal_log_fold_logp,
    Finset.sum_range_succ, Finset.sum_range_one, Finset.sum_range_one,
    Finset.sum_range_one]
  unfold normal_log_elt
  norm_num [include_summand, Arg.view, ArgVal.view]

/-- Witness for C8 at `y = [0, 1]`, `mu = 0`, `sigma = 1`. -/
theorem c8_broadcast_additivity_witness :
    ∃ rv r1 r2 : NRes,
      normal_log false ⟨.vec [0, 1], true⟩ ⟨.scalar 0, true⟩ ⟨.scalar 1, true⟩
          = .ok rv
        ∧ normal_log false ⟨.scalar 0, true⟩ ⟨.scalar 0, true⟩
            ⟨.scalar 1, true⟩ = .ok r1
        ∧ normal_log false ⟨.scalar 1, true⟩ ⟨.scalar 0, true⟩
            ⟨.scalar 1, true⟩ = .ok r2
        ∧ rv.val = r1.val + r2.val :=
  c8_broadcast_additivity 0 1 0 1 one_pos

/-- C5: in proportional mode `normal_log` returns 0 at once when all three
inputs are constant; and with an all-constant `sigma` but tracked `y` or
`mu` it omits the `-0.5*log(2π)` and `log(sigma)` terms, so the
non-proportional result exceeds it by exactly the sigma-only offset
`Σₙ (-0.5*log(2π) - log(sigma[n]))`, independent of `y` and `mu`. -/
theorem c5_proportional_mode (y mu sigma : Arg)
    (hy : y.length ≠ 0) (hmu : mu.length ≠ 0) (hsig : sigma.length ≠ 0)
    (hpos : ∀ n, n < sigma.length → 0 < sigma.view n)
    (hsz : sizesOK y mu sigma) :
    (y.isConst = true → mu.isConst = true → sigma.isConst = true →
        normal_log true y mu sigma = .ok ⟨0, .zero⟩)
      ∧ (sigma.isConst = true → (y.isConst = false ∨ mu.isConst = false) →
        ∃ rf rt : NRes,
          normal_log false y mu sigma = .ok rf
            ∧ normal_log true y mu sigma = .ok rt
            ∧ rf.val = rt.val
                + ∑ n ∈ Finset.range (max_size y mu sigma),
                    (NEG_LOG_SQRT_TWO_PI - Real.log (sigma.view n))) := by
  have hredf := normal_log_of_valid false y mu sigma hy hmu hsig hpos hsz
  have hredt := normal_log_of_valid true y mu sigma hy hmu hsig hpos hsz
  constructor
  · intro hcy hcmu hcs
    rw [hredt, if_pos (by simp [include_summand, hcy, hcmu, hcs])]
  · intro hcs htracked
    have hinc : include_summand true [y.isConst, mu.isConst, sigma.isConst]
        = true := by
      rcases htracked with h | h <;> simp [include_summand, h]
    have hincf : include_summand false [y.isConst, mu.isConst, sigma.isConst]
        = true := rfl
    have hokf : normal_log false y mu sigma
        = .ok ⟨((List.range (max_size y mu sigma)).foldl
                  (normal_log_step false y mu sigma) ⟨0, .zero⟩).logp,
               ((List.range (max_size y mu sigma)).foldl
                  (normal_log_step false y mu sigma) ⟨0, .zero⟩).pd⟩ := by
      rw [hredf, if_neg (by simp [hincf])]
    have hokt : normal_log true y mu sigma
        = .ok ⟨((List.range (max_size y mu sigma)).foldl
                  (normal_log_step true y mu sigma) ⟨0, .zero⟩).logp,
               ((List.range (max_size y mu sigma)).foldl
                  (normal_log_step true y mu sigma) ⟨0, .zero⟩).pd⟩ := by
      rw [hredt, if_neg (by simp [hinc])]
    refine ⟨_, _, hokf, hokt, ?_⟩
    show ((List.range (max_size y mu sigma)).foldl
          (normal_log_step false y mu sigma) ⟨0, .zero⟩).logp
        = ((List.range (max_size y mu sigma)).foldl
            (normal_log_step true y mu sigma) ⟨0, .zero⟩).logp
          + ∑ n ∈ Finset.range (max_size y mu sigma),
            (NEG_LOG_SQRT_TWO_PI - Real.log (sigma.view n))
    rw [normal_log_fold_logp, normal_log_fold_logp, zero_add, zero_add,
      ← Finset.sum_add_distrib]
    refine Finset.sum_congr rfl (fun n _ => ?_)
    unfold normal_log_elt
    rw [hinc]
    have h0t : include_summand true [] = false := rfl
    have h0f : include_summand false [] = true := rfl
    have hst : include_summand true [sigma.isConst] = false := by
      simp [include_summand, hcs]
    have hsf : include_summand false [sigma.isConst] = true := rfl
    rw [h0t, h0f, hst, hsf, hincf]
    simp
    ring

/-- Witness for C5: all-constant inputs short-circuit to 0; with tracked `y`
and constant `sigma = 1` the two modes differ by the sigma-only offset. -/
theorem c5_proportional_mode_witness :
    (normal_log true ⟨.scalar 0, true⟩ ⟨.scalar 0, true⟩ ⟨.scalar 1, true⟩
        = .ok ⟨0, .zero⟩)
      ∧ (∃ rf rt : NRes,
          normal_log false ⟨.scalar 0, false⟩ ⟨.scalar 0, true⟩
              ⟨.scalar 1, true⟩ = .ok rf
            ∧ normal_log true ⟨.scalar 0, false⟩ ⟨.scalar 0, true⟩
                ⟨.scalar 1, true⟩ = .ok rt
            ∧ rf.val = rt.val
                + ∑ n ∈ Finset.range (max_size ⟨.scalar 0, false⟩
                    ⟨.scalar 0, true⟩ ⟨.scalar 1, true⟩),
                    (NEG_LOG_SQRT_TWO_PI
                      - Real.log (Arg.view ⟨.scalar 1, true⟩ n))) :=
  ⟨(c5_proportional_mode ⟨.scalar 0, true⟩ ⟨.scalar 0, true⟩ ⟨.scalar 1, true⟩
      one_ne_zero one_ne_zero one_ne_zero (fun _ _ => one_pos)
      ⟨Or.inl rfl, Or.inl rfl, Or.inl rfl⟩).1 rfl rfl rfl,
    (c5_proportional_mode ⟨.scalar 0, false⟩ ⟨.scalar 0, true⟩
      ⟨.scalar 1, true⟩ one_ne_zero one_ne_zero one_ne_zero
      (fun _ _ => one_pos) ⟨Or.inl rfl, Or.inl rfl, Or.inl rfl⟩).2
      rfl (Or.inl rfl)⟩

/-- C4: on valid inputs `normal_log` accumulates, at each broadcast index
`n`, the partial derivatives `d/dy = -z/sigma[n]`, `d/dmu = +z/sigma[n]` and
`d/dsigma = -1/sigma[n] + z²/sigma[n]` (with `z = (y[n]-mu[n])/sigma[n]`)
into the corresponding input's accumulator slot, while a constant input's
accumulator never receives a derivative write. -/
theorem c4_normal_log_gradient_accumulation (p : Bool) (y mu sigma : Arg)
    (hy : y.length ≠ 0) (hmu : mu.length ≠ 0) (hsig : sigma.length ≠ 0)
    (hpos : ∀ n, n < sigma.length → 0 < sigma.view n)
    (hsz : sizesOK y mu sigma) :
    ∃ r : NRes,
      normal_log p y mu sigma = .ok r
        ∧ (y.isConst = true → r.pd.d1 = fun _ => 0)
        ∧ (y.isConst = false → r.pd.d1 = fun j =>
            ∑ n ∈ Finset.range (max_size y mu sigma),
              (if j = y.idx n then
                -(((y.view n - mu.view n) / sigma.view n) / sigma.view n)
              else 0))
        ∧ (mu.isConst = true → r.pd.d2 = fun _ => 0)
        ∧ (mu.isConst = false → r.pd.d2 = fun j =>
            ∑ n ∈ Finset.range (max_size y mu sigma),
              (if j = mu.idx n then
                ((y.view n - mu.view n) / sigma.view n) / sigma.view n
              else 0))
        ∧ (sigma.isConst = true → r.pd.d3 = fun _ => 0)
        ∧ (sigma.isConst = false → r.pd.d3 = fun j =>
            ∑ n ∈ Finset.range (max_size y mu sigma),
              (if j = sigma.idx n then
                -(1 / sigma.view n)
                  + (((y.view n - mu.view n) / sigma.view n)
                      * ((y.view n - mu.view n) / sigma.view n)) / sigma.view n
              else 0)) := by
  have hred := normal_log_of_valid p y mu sigma hy hmu hsig hpos hsz
  by_cases hinc : include_summand p [y.isConst, mu.isConst, sigma.isConst]
      = true
  · have hok : normal_log p y mu sigma
        = .ok ⟨((List.range (max_size y mu sigma)).foldl
                  (normal_log_step p y mu sigma) ⟨0, .zero⟩).logp,
               ((List.range (max_size y mu sigma)).foldl
                  (normal_log_step p y mu sigma) ⟨0, .zero⟩).pd⟩ := by
      rw [hred, if_neg (by simp [hinc])]
    refine ⟨_, hok, fun hc => ?_, fun hc => ?_, fun hc => ?_, fun hc => ?_,
      fun hc => ?_, fun hc => ?_⟩
    · rw [normal_log_fold_d1_const p y mu sigma hc]
      rfl
    · rw [normal_log_fold_d1 p y mu sigma hc]
      funext j
      show (0 : ℝ) + _ = _
      rw [zero_add]
      refine Finset.sum_congr rfl (fun n _ => ?_)
      by_cases hj : j = y.idx n <;>
        simp only [hj, if_true, if_false, if_pos, if_neg, ne_eq,
          not_false_iff] <;> simp [hj, normal_log_scaled_diff] <;> ring
    · rw [normal_log_fold_d2_const p y mu sigma hc]
      rfl
    · rw [normal_log_fold_d2 p y mu sigma hc]
      funext j
      show (0 : ℝ) + _ = _
      rw [zero_add]
      refine Finset.sum_congr rfl (fun n _ => ?_)
      by_cases hj : j = mu.idx n <;>
        simp [hj, normal_log_scaled_diff] <;> ring
    · rw [normal_log_fold_d3_const p y mu sigma hc]
      rfl
    · rw [normal_log_fold_d3 p y mu sigma hc]
      funext j
      show (0 : ℝ) + _ = _
      rw [zero_add]
      refine Finset.sum_congr rfl (fun n _ => ?_)
      by_cases hj : j = sigma.idx n <;>
        simp [hj, normal_log_dsigma] <;> ring
  · have hb : include_summand p [y.isConst, mu.isConst, sigma.isConst]
        = false := Bool.eq_false_iff.mpr hinc
    have hcy : y.isConst = true := by
      cases h : y.isConst
      · simp [include_summand, h] at hb
      · rfl
    have hcmu : mu.isConst = true := by
      cases h : mu.isConst
      · simp [include_summand, h] at hb
      · rfl
    have hcs : sigma.isConst = true := by
      cases h : sigma.isConst
      · simp [include_summand, h] at hb
      · rfl
    refine ⟨⟨0, .zero⟩, by rw [hred, if_pos (by simp [hb])], fun _ => rfl,
      fun hc => ?_, fun _ => rfl, fun hc => ?_, fun _ => rfl, fun hc => ?_⟩
    · rw [hcy] at hc
      exact Bool.noConfusion hc
    · rw [hcmu] at hc
      exact Bool.noConfusion hc
    · rw [hcs] at hc
      exact Bool.noConfusion hc

/-- Witness for C4 with tracked `y` and `sigma`, constant `mu`, at
`y = 0`, `mu = 0`, `sigma = 1`. -/
theorem c4_normal_log_gradient_witness :
    ∃ r : NRes,
      normal_log false ⟨.scalar 0, false⟩ ⟨.scalar 0, true⟩ ⟨.scalar 1, false⟩
          = .ok r
        ∧ (Arg.isConst ⟨.scalar (0 : ℝ), false⟩ = true → r.pd.d1 = fun _ => 0)
        ∧ (Arg.isConst ⟨.scalar (0 : ℝ), false⟩ = false → r.pd.d1 = fun j =>
            ∑ n ∈ Finset.range (max_size ⟨.scalar 0, false⟩ ⟨.scalar 0, true⟩
                ⟨.scalar 1, false⟩),
              (if j = Arg.idx ⟨.scalar 0, false⟩ n then
                -(((Arg.view ⟨.scalar 0, false⟩ n
                      - Arg.view ⟨.scalar 0, true⟩ n)
                    / Arg.view ⟨.scalar 1, false⟩ n)
                  / Arg.view ⟨.scalar 1, false⟩ n)
              else 0))
        ∧ (Arg.isConst ⟨.scalar (0 : ℝ), true⟩ = true → r.pd.d2 = fun _ => 0)
        ∧ (Arg.isConst ⟨.scalar (0 : ℝ), true⟩ = false → r.pd.d2 = fun j =>
            ∑ n ∈ Finset.range (max_size ⟨.scalar 0, false⟩ ⟨.scalar 0, true⟩
                ⟨.scalar 1, false⟩),
              (if j = Arg.idx ⟨.scalar 0, true⟩ n then
                ((Arg.view ⟨.scalar 0, false⟩ n - Arg.view ⟨.scalar 0, true⟩ n)
                    / Arg.view ⟨.scalar 1, false⟩ n)
                  / Arg.view ⟨.scalar 1, false⟩ n
              else 0))
        ∧ (Arg.isConst ⟨.scalar (1 : ℝ), false⟩ = true → r.pd.d3 = fun _ => 0)
        ∧ (Arg.isConst ⟨.scalar (1 : ℝ), false⟩ = false → r.pd.d3 = fun j =>
            ∑ n ∈ Finset.range (max_size ⟨.scalar 0, false⟩ ⟨.scalar 0, true⟩
                ⟨.scalar 1, false⟩),
              (if j = Arg.idx ⟨.scalar 1, false⟩ n then
                -(1 / Arg.view ⟨.scalar 1, false⟩ n)
                  + (((Arg.view ⟨.scalar 0, false⟩ n
                        - Arg.view ⟨.scalar 0, true⟩ n)
                      / Arg.view ⟨.scalar 1, false⟩ n)
                    * ((Arg.view ⟨.scalar 0, false⟩ n
                        - Arg.view ⟨.scalar 0, true⟩ n)
                      / Arg.view ⟨.scalar 1, false⟩ n))
                    / Arg.view ⟨.scalar 1, false⟩ n
              else 0)) :=
  c4_normal_log_gradient_accumulation false ⟨.scalar 0, false⟩
    ⟨.scalar 0, true⟩ ⟨.scalar 1, false⟩ one_ne_zero one_ne_zero one_ne_zero
    (fun _ _ => one_pos) ⟨Or.inl rfl, Or.inl rfl, Or.inl rfl⟩

/-- C3: `normal_cdf` accumulates its scalar result as the product of the
per-element cdf factors starting from 1, and after the loop a single
post-pass multiplies every accumulated derivative slot of every
non-constant input by the final joint-cdf product (constant inputs receive
no derivative writes at all). -/
theorem c3_cdf_product_accumulation_and_rescale (erf erfc : ℝ → ℝ)
    (y mu sigma : Arg)
    (hy : y.length ≠ 0) (hmu : mu.length ≠ 0) (hsig : sigma.length ≠ 0)
    (hpos : ∀ n, n < sigma.length → 0 < sigma.view n)
    (hsz : sizesOK y mu sigma) :
    ∃ r : NRes,
      normal_cdf erf erfc y mu sigma = .ok r
        ∧ r.val = ∏ n ∈ Finset.range (max_size y mu sigma),
            normal_cdf_factor erf erfc (scaled_diff y mu sigma n)
        ∧ (y.isConst = true → r.pd.d1 = fun _ => 0)
        ∧ (y.isConst = false → ∀ j, j < y.length →
            r.pd.d1 j = (∑ n ∈ Finset.range (max_size y mu sigma),
              (if j = y.idx n then normal_cdf_rep_deriv erf erfc y mu sigma n
               else 0)) * r.val)
        ∧ (mu.isConst = true → r.pd.d2 = fun _ => 0)
        ∧ (mu.isConst = false → ∀ j, j < mu.length →
            r.pd.d2 j = (∑ n ∈ Finset.range (max_size y mu sigma),
              (if j = mu.idx n then -normal_cdf_rep_deriv erf erfc y mu sigma n
               else 0)) * r.val)
        ∧ (sigma.isConst = true → r.pd.d3 = fun _ => 0)
        ∧ (sigma.isConst = false → ∀ j, j < sigma.length →
            r.pd.d3 j = (∑ n ∈ Finset.range (max_size y mu sigma),
              (if j = sigma.idx n then
                -(normal_cdf_rep_deriv erf erfc y mu sigma n
                    * scaled_diff y mu sigma n * SQRT_2)
               else 0)) * r.val) := by
  have hok := normal_cdf_of_valid erf erfc y mu sigma hy hmu hsig hpos hsz
  refine ⟨_, hok, ?_, fun hc => ?_, fun hc j hj => ?_, fun hc => ?_,
    fun hc j hj => ?_, fun hc => ?_, fun hc j hj => ?_⟩
  · show ((List.range (max_size y mu sigma)).foldl
        (normal_cdf_step erf erfc y mu sigma) ⟨1, .zero⟩).val = _
    rw [normal_cdf_fold_val, one_mul]
  · simp only [hc]
    rw [normal_cdf_fold_d1_const erf erfc y mu sigma hc]
    rfl
  · simp only [hc, Bool.not_false, if_true]
    rw [normal_cdf_fold_d1 erf erfc y mu sigma hc]
    simp [scaleBelow, Partials3.zero, hj]
  · simp only [hc]
    rw [normal_cdf_fold_d2_const erf erfc y mu sigma hc]
    rfl
  · simp only [hc, Bool.not_false, if_true]
    rw [normal_cdf_fold_d2 erf erfc y mu sigma hc]
    simp [scaleBelow, Partials3.zero, hj]
  · simp only [hc]
    rw [normal_cdf_fold_d3_const erf erfc y mu sigma hc]
    rfl
  · simp only [hc, Bool.not_false, if_true]
    rw [normal_cdf_fold_d3 erf erfc y mu sigma hc]
    simp [scaleBelow, Partials3.zero, hj]

/-- Witness for C3 with tracked scalar `y`, constant `mu` and `sigma`, at
`y = 0`, `mu = 0`, `sigma = 1`. -/
theorem c3_cdf_rescale_witness :
    ∃ r : NRes,
      normal_cdf (fun _ => 0) (fun _ => 0) ⟨.scalar 0, false⟩
          ⟨.scalar 0, true⟩ ⟨.scalar 1, true⟩ = .ok r
        ∧ r.val = ∏ n ∈ Finset.range (max_size ⟨.scalar 0, false⟩
              ⟨.scalar 0, true⟩ ⟨.scalar 1, true⟩),
            normal_cdf_factor (fun _ => 0) (fun _ => 0)
              (scaled_diff ⟨.scalar 0, false⟩ ⟨.scalar 0, true⟩
                ⟨.scalar 1, true⟩ n)
        ∧ (Arg.isConst ⟨.scalar (0 : ℝ), false⟩ = true → r.pd.d1 = fun _ => 0)
        ∧ (Arg.isConst ⟨.scalar (0 : ℝ), false⟩ = false → ∀ j,
            j < Arg.length ⟨.scalar (0 : ℝ), false⟩ →
            r.pd.d1 j = (∑ n ∈ Finset.range (max_size ⟨.scalar 0, false⟩
                ⟨.scalar 0, true⟩ ⟨.scalar 1, true⟩),
              (if j = Arg.idx ⟨.scalar 0, false⟩ n then
                normal_cdf_rep_deriv (fun _ => 0) (fun _ => 0)
                  ⟨.scalar 0, false⟩ ⟨.scalar 0, true⟩ ⟨.scalar 1, true⟩ n
               else 0)) * r.val)
        ∧ (Arg.isConst ⟨.scalar (0 : ℝ), true⟩ = true → r.pd.d2 = fun _ => 0)
        ∧ (Arg.isConst ⟨.scalar (0 : ℝ), true⟩ = false → ∀ j,
            j < Arg.length ⟨.scalar (0 : ℝ), true⟩ →
            r.pd.d2 j = (∑ n ∈ Finset.range (max_size ⟨.scalar 0, false⟩
                ⟨.scalar 0, true⟩ ⟨.scalar 1, true⟩),
              (if j = Arg.idx ⟨.scalar 0, true⟩ n then
                -normal_cdf_rep_deriv (fun _ => 0) (fun _ => 0)
                  ⟨.scalar 0, false⟩ ⟨.scalar 0, true⟩ ⟨.scalar 1, true⟩ n
               else 0)) * r.val)
        ∧ (Arg.isConst ⟨.scalar (1 : ℝ), true⟩ = true → r.pd.d3 = fun _ => 0)
        ∧ (Arg.isConst ⟨.scalar (1 : ℝ), true⟩ = false → ∀ j,
            j < Arg.length ⟨.scalar (1 : ℝ), true⟩ →
            r.pd.d3 j = (∑ n ∈ Finset.range (max_size ⟨.scalar 0, false⟩
                ⟨.scalar 0, true⟩ ⟨.scalar 1, true⟩),
              (if j = Arg.idx ⟨.scalar 1, true⟩ n then
                -(normal_cdf_rep_deriv (fun _ => 0) (fun _ => 0)
                    ⟨.scalar 0, false⟩ ⟨.scalar 0, true⟩ ⟨.scalar 1, true⟩ n
                  * scaled_diff ⟨.scalar 0, false⟩ ⟨.scalar 0, true⟩
                      ⟨.scalar 1, true⟩ n * SQRT_2)
               else 0)) * r.val) :=
  c3_cdf_product_accumulation_and_rescale (fun _ => 0) (fun _ => 0)
    ⟨.scalar 0, false⟩ ⟨.scalar 0, true⟩ ⟨.scalar 1, true⟩ one_ne_zero
    one_ne_zero one_ne_zero (fun _ _ => one_pos)
    ⟨Or.inl rfl, Or.inl rfl, Or.inl rfl⟩

end StanNormal
